import Mathlib

/-!
Shallow embedding of the `mynewt-newt` fragments under verification:

* `newt/newtutil/newtutil.go`: `Version`, `VerCmp`, `ParsePackageString`,
  `BuildPackageString`, `FindRepoDesignator`, `ReplaceRepoDesignators`.
* `cli/downloader.go`: the `Downloader` fetch cache (`GetRepo`,
  `DownloadFile`).

Go strings are modelled as lists of characters (`GoStr`); Go `int64`
arithmetic is modelled on `Int` with explicit two's-complement wraparound;
the external effects of the downloader (temporary-directory creation, the
`git clone` shell command, file copying) are modelled by an explicit
environment record so that the cache logic itself is a pure function.
-/

namespace Newt

/-- A Go string, modelled as its list of characters. -/
abbrev GoStr := List Char

namespace Newtutil

/-- Models `strings.TrimSuffix(s, "/")`: removes one trailing `/` when the
string ends with `/`, otherwise returns the string unchanged. -/
def trimSuffixSlash (s : GoStr) : GoStr :=
  if s.getLast? = some '/' then s.dropLast else s

/-- Models `strings.TrimPrefix(s, pre)`: removes `pre` from the front when
it is a prefix of `s`, otherwise returns `s` unchanged. -/
def goTrimPrefix (s pre : GoStr) : GoStr :=
  if pre.isPrefixOf s then s.drop pre.length else s

/-- Models `strings.SplitN(s, c, 2)` for a one-character separator, returning
`some (before, after)` split at the first occurrence of `c`, or `none` when
`c` does not occur (Go would return a one-element slice in that case). -/
def splitFirst (c : Char) : GoStr → Option (GoStr × GoStr)
  | [] => none
  | x :: xs =>
    if x = c then some ([], xs)
    else
      match splitFirst c xs with
      | some (a, b) => some (x :: a, b)
      | none => none

/-- Error type for `newtutil`; `invalidPackageString` carries the offending
(trimmed) package string, mirroring `util.NewNewtError` with its message. -/
inductive NewtError where
  | invalidPackageString (s : GoStr)
deriving DecidableEq

deriving instance DecidableEq for Except

/-- Embedding of `ParsePackageString` from `newt/newtutil/newtutil.go`:
trims one trailing `/`, then, when the string starts with `@`
(`strings.HasPrefix(pkgStr, "@")`, modelled by the head character), splits
the remainder `pkgStr[1:]` on the first `/` via `strings.SplitN(_, "/", 2)`;
a missing `/` is the invalid-package-string error. Without the `@` prefix
the whole trimmed string is the package path and the repo name is empty. -/
def ParsePackageString (pkgStr : GoStr) : Except NewtError (GoStr × GoStr) :=
  let t := trimSuffixSlash pkgStr
  if t.head? = some '@' then
    match splitFirst '/' (t.drop 1) with
    | none => .error (.invalidPackageString t)
    | some (a, b) => .ok (a, b)
  else
    .ok ([], t)

/-- Embedding of `BuildPackageString` from `newt/newtutil/newtutil.go`. -/
def BuildPackageString (repoName pkgName : GoStr) : GoStr :=
  if repoName ≠ [] then '@' :: (repoName ++ '/' :: pkgName) else pkgName

/-- Modelled from the spec: the reference algorithm for package-string
parsing, written from the specification text rather than from the Go code —
strip one trailing `/`; if the remaining string starts with `@` and contains
a `/` after the `@`, return the text between `@` and the first `/` as the
repo name and everything after that first `/` as the package path; if it
starts with `@` but has no `/` after the `@`, fail with the
invalid-package-string error; otherwise the repo name is empty and the
package path is the stripped string. -/
def parsePackageStringRef (pkgStr : GoStr) : Except NewtError (GoStr × GoStr) :=
  let t := trimSuffixSlash pkgStr
  if t.head? = some '@' ∧ '/' ∈ t.drop 1 then
    .ok ((t.drop 1).takeWhile (fun c => c ≠ '/'),
      ((t.drop 1).dropWhile (fun c => c ≠ '/')).drop 1)
  else if t.head? = some '@' then
    .error (.invalidPackageString t)
  else
    .ok ([], t)

/-- Embedding of `FindRepoDesignator` from `newt/newtutil/newtutil.go`:
`strings.Index(s, "@")`, then `strings.Index(s[start:], "/")` — the second
index is relative to the `@` position. `-1` encodes not-found, as in Go. -/
def FindRepoDesignator (s : GoStr) : Int × Int :=
  match s.findIdx? (· == '@') with
  | none => (-1, -1)
  | some start =>
    match (s.drop start).findIdx? (· == '/') with
    | none => (-1, -1)
    | some len => ((start : Int), (len : Int))

/-- The project interface consulted by `ReplaceRepoDesignators` through
`interfaces.GetProject()`: `FindRepoPath` (empty string when the repository
is unknown) and the project root `Path`. -/
structure Project where
  findRepoPath : GoStr → GoStr
  path : GoStr

/-- The repo name `s[start+1 : start+len]` extracted between the `@` at
index `start` and the `/` at index `start + len`. -/
def repoNameAt (s : GoStr) (start len : Nat) : GoStr :=
  (s.drop (start + 1)).take (len - 1)

/-- Embedding of `ReplaceRepoDesignators` from `newt/newtutil/newtutil.go`,
with the ambient project passed explicitly. -/
def ReplaceRepoDesignators (proj : Project) (s : GoStr) : GoStr × Bool :=
  let p := FindRepoDesignator s
  if p.1 = -1 then
    (s, false)
  else
    let start := p.1.toNat
    let len := p.2.toNat
    let repoName := repoNameAt s start len
    let repoPath := proj.findRepoPath repoName
    if repoPath = [] then
      (s, false)
    else
      let relRepoPath := goTrimPrefix repoPath (proj.path ++ ['/'])
      (s.take start ++ relRepoPath ++ s.drop (start + len), true)

/-- The `Version` struct: three Go `int64` fields, modelled as `Int`. -/
structure Version where
  major : Int
  minor : Int
  revision : Int
deriving DecidableEq

/-- Two's-complement wraparound of an integer into the `int64` range,
`[-2^63, 2^63)`. -/
def wrap64 (x : Int) : Int := (x + 2 ^ 63) % 2 ^ 64 - 2 ^ 63

/-- Go `int64` subtraction: mathematical subtraction followed by
two's-complement wraparound (Go signed overflow wraps). -/
def int64Sub (a b : Int) : Int := wrap64 (a - b)

/-- Embedding of `VerCmp` from `newt/newtutil/newtutil.go`: the first
non-zero `int64` difference among (major, minor, revision), else zero. -/
def VerCmp (v1 v2 : Version) : Int :=
  if int64Sub v1.major v2.major ≠ 0 then int64Sub v1.major v2.major
  else if int64Sub v1.minor v2.minor ≠ 0 then int64Sub v1.minor v2.minor
  else if int64Sub v1.revision v2.revision ≠ 0 then int64Sub v1.revision v2.revision
  else 0

end Newtutil

namespace Downloader

/-- An opaque Go `error` value, identified by its message. -/
structure GoError where
  msg : String
deriving DecidableEq

/-- Results of the external effects one `GetRepo`/`DownloadFile` call can
perform: `tempDir` is the result of `ioutil.TempDir("", "newtrepo")`,
`cloneResult url branch dest` is the error (if any) of `gitClone` (the
`git clone` shell command followed by removal of `.git`), and
`copyResult src dst` is the error (if any) of `CopyFile`. -/
structure FetchEnv where
  tempDir : Except GoError String
  cloneResult : String → String → String → Option GoError
  copyResult : String → String → Option GoError

/-- Lookup in the `Repos` map, modelled as an association list with the
most recent binding first. -/
def lookupRepo (key : String) : List (String × String) → Option String
  | [] => none
  | (k, v) :: rest => if key = k then some v else lookupRepo key rest

/-- The `Downloader` state: the `Repos map[string]string` fetch cache. -/
structure DlState where
  repos : List (String × String)
deriving DecidableEq

/-- Embedding of `Downloader.GetRepo` from `cli/downloader.go`. Returns the
Go result (`(string, error)` as `Except`), the updated cache state, and the
number of times the clone mechanism (`gitClone`) was invoked during the
call. The cache key is the concatenation `repoUrl + branch`. On clone
failure the Go code executes `return "", nil` — success with an empty path
and the clone error discarded — which this embedding reproduces verbatim. -/
def GetRepo (env : FetchEnv) (st : DlState) (repoUrl branch : String) :
    Except GoError String × DlState × Nat :=
  match lookupRepo (repoUrl ++ branch) st.repos with
  | some dir => (.ok dir, st, 0)
  | none =>
    match env.tempDir with
    | .error e => (.error e, st, 0)
    | .ok dir =>
      match env.cloneResult repoUrl branch dir with
      | some _ => (.ok "", st, 1)
      | none => (.ok dir, ⟨(repoUrl ++ branch, dir) :: st.repos⟩, 1)

/-- Embedding of `Downloader.DownloadFile` from `cli/downloader.go`:
fetch (or reuse) the repo via `GetRepo`, then copy
`repoDir + "/" + filePath` to `destPath`. -/
def DownloadFile (env : FetchEnv) (st : DlState)
    (repoUrl branch filePath destPath : String) :
    Except GoError Unit × DlState × Nat :=
  match GetRepo env st repoUrl branch with
  | (.error e, st', n) => (.error e, st', n)
  | (.ok repoDir, st', n) =>
    match env.copyResult (repoDir ++ "/" ++ filePath) destPath with
    | some e => (.error e, st', n)
    | none => (.ok (), st', n)

end Downloader

open Newtutil Downloader

/-- An environment in which temporary-directory creation succeeds but the
clone command fails; file copies succeed. -/
def cloneFailEnv : FetchEnv :=
  { tempDir := .ok "/tmp/newtrepo0"
    cloneResult := fun _ _ _ => some ⟨"git clone exited with status 128"⟩
    copyResult := fun _ _ => none }

/-- An environment in which every external step succeeds. -/
def okCloneEnv : FetchEnv :=
  { tempDir := .ok "/tmp/newtrepo1"
    cloneResult := fun _ _ _ => none
    copyResult := fun _ _ => none }

/-- An environment in which every external step fails. -/
def downEnv : FetchEnv :=
  { tempDir := .error ⟨"no temp space"⟩
    cloneResult := fun _ _ _ => some ⟨"network down"⟩
    copyResult := fun _ _ => some ⟨"copy failed"⟩ }

/-- Position `i` holds the first occurrence of character `c` in `s`. -/
def firstOccurAt (c : Char) (s : GoStr) (i : Nat) : Prop :=
  s[i]? = some c ∧ ∀ j, j < i → s[j]? ≠ some c

/-- A project that maps `repoX` to the absolute path `/proj/repoX` under
the project root `/proj`, and knows no other repository. -/
def projX : Project :=
  { findRepoPath := fun n =>
      if n = ['r', 'e', 'p', 'o', 'X'] then "/proj/repoX".toList else []
    path := "/proj".toList }

/-- A project that knows no repository at all. -/
def noRepoProj : Project :=
  { findRepoPath := fun _ => [], path := [] }

/-- C1: the claim fails on the code. With an empty cache and a failing
clone command, `GetRepo` returns `("", nil)` — success with an empty path,
the clone error discarded (the Go body reads `return "", nil` where
`return "", err` was clearly intended, since the adjacent temp-dir failure
is propagated) — and `DownloadFile` for the same `(url, branch)` does not
fail with the clone error either: it proceeds to copy from the bogus path
`"" + "/" + filePath` and here returns success. -/
theorem getRepo_clone_failure_not_propagated :
    GetRepo cloneFailEnv ⟨[]⟩ "https://example.com/repo" "master" =
      (.ok "", ⟨[]⟩, 1) ∧
    DownloadFile cloneFailEnv ⟨[]⟩ "https://example.com/repo" "master"
      "pkg.yml" "/dest/pkg.yml" = (.ok (), ⟨[]⟩, 1) :=
  ⟨rfl, rfl⟩

/-- C3: if `(url, branch)` is not yet cached and the first `GetRepo` call
performs a successful clone, then that call returns the fresh directory
having invoked the clone mechanism exactly once, and a second sequential
call with identical arguments — under any environment whatsoever — returns
the identical path, leaves the state unchanged, and invokes the clone
mechanism zero further times. -/
theorem getRepo_second_call_cached (env1 env2 : FetchEnv) (st : DlState)
    (repoUrl branch tmp : String)
    (hmiss : lookupRepo (repoUrl ++ branch) st.repos = none)
    (htmp : env1.tempDir = .ok tmp)
    (hclone : env1.cloneResult repoUrl branch tmp = none) :
    ∃ st', GetRepo env1 st repoUrl branch = (.ok tmp, st', 1) ∧
      GetRepo env2 st' repoUrl branch = (.ok tmp, st', 0) := by
  refine ⟨⟨(repoUrl ++ branch, tmp) :: st.repos⟩, ?_, ?_⟩
  · simp [GetRepo, hmiss, htmp, hclone]
  · simp [GetRepo, lookupRepo]

/-- Witness for C3 at a concrete repo, branch and environment pair; the
second call runs in an environment where cloning would fail, showing the
clone mechanism is not consulted again. -/
theorem getRepo_second_call_cached_witness :
    ∃ st', GetRepo okCloneEnv ⟨[]⟩ "https://example.com/repo" "master" =
        (.ok "/tmp/newtrepo1", st', 1) ∧
      GetRepo downEnv st' "https://example.com/repo" "master" =
        (.ok "/tmp/newtrepo1", st', 0) :=
  getRepo_second_call_cached okCloneEnv downEnv ⟨[]⟩
    "https://example.com/repo" "master" "/tmp/newtrepo1" rfl rfl rfl

/-- C4: when `GetRepo` does not reach a confirmed successful clone — the
temporary-directory creation fails, or the clone step fails — the cache is
left exactly as it was, the key `(url, branch)` is still unmapped, and a
later call in an environment whose temp-dir step succeeds attempts the
clone again (invokes the clone mechanism once) rather than serving a
partial entry. -/
theorem getRepo_failure_leaves_cache (env : FetchEnv) (st : DlState)
    (repoUrl branch : String)
    (hmiss : lookupRepo (repoUrl ++ branch) st.repos = none)
    (hfail : (∃ e, env.tempDir = .error e) ∨
      ∃ d e, env.tempDir = .ok d ∧ env.cloneResult repoUrl branch d = some e) :
    (GetRepo env st repoUrl branch).2.1 = st ∧
      lookupRepo (repoUrl ++ branch) (GetRepo env st repoUrl branch).2.1.repos =
        none ∧
      ∀ env' d', env'.tempDir = .ok d' →
        (GetRepo env' st repoUrl branch).2.2 = 1 := by
  have hstate : (GetRepo env st repoUrl branch).2.1 = st := by
    rcases hfail with ⟨e, he⟩ | ⟨d, e, hd, hc⟩
    · simp [GetRepo, hmiss, he]
    · simp [GetRepo, hmiss, hd, hc]
  refine ⟨hstate, by rw [hstate]; exact hmiss, ?_⟩
  intro env' d' htmp'
  cases h : env'.cloneResult repoUrl branch d' <;>
    simp [GetRepo, hmiss, htmp', h]

/-- Witness for C4: a failing clone on an empty cache leaves the cache
empty and a retry still attempts the clone. -/
theorem getRepo_failure_leaves_cache_witness :
    (GetRepo cloneFailEnv ⟨[]⟩ "https://example.com/repo" "master").2.1 =
      (⟨[]⟩ : DlState) ∧
      lookupRepo ("https://example.com/repo" ++ "master")
        (GetRepo cloneFailEnv ⟨[]⟩ "https://example.com/repo"
          "master").2.1.repos = none ∧
      ∀ env' d', env'.tempDir = .ok d' →
        (GetRepo env' ⟨[]⟩ "https://example.com/repo" "master").2.2 = 1 :=
  getRepo_failure_leaves_cache cloneFailEnv ⟨[]⟩ "https://example.com/repo"
    "master" rfl
    (Or.inr ⟨"/tmp/newtrepo0", ⟨"git clone exited with status 128"⟩, rfl, rfl⟩)

/-- C10: the cache key is the plain concatenation `url + branch`, so two
distinct `(url, branch)` pairs with equal concatenations alias one entry:
after a successful clone under the first pair, a `GetRepo` call with the
second pair returns the directory cloned for the first — in any
environment, so without invoking the clone mechanism. -/
theorem getRepo_cache_key_aliasing (env1 env2 : FetchEnv) (st : DlState)
    (u1 b1 u2 b2 tmp : String)
    (hkey : u1 ++ b1 = u2 ++ b2)
    (hmiss : lookupRepo (u1 ++ b1) st.repos = none)
    (htmp : env1.tempDir = .ok tmp)
    (hclone : env1.cloneResult u1 b1 tmp = none) :
    ∃ st', GetRepo env1 st u1 b1 = (.ok tmp, st', 1) ∧
      GetRepo env2 st' u2 b2 = (.ok tmp, st', 0) := by
  refine ⟨⟨(u1 ++ b1, tmp) :: st.repos⟩, ?_, ?_⟩
  · simp [GetRepo, hmiss, htmp, hclone]
  · simp [GetRepo, lookupRepo, ← hkey]

/-- Witness for C10 at the pairs `("ab", "c")` and `("a", "bc")`: the
second pair is served from the entry cloned for the first, in an
environment where cloning would fail. -/
theorem getRepo_cache_key_aliasing_witness :
    ∃ st', GetRepo okCloneEnv ⟨[]⟩ "ab" "c" = (.ok "/tmp/newtrepo1", st', 1) ∧
      GetRepo downEnv st' "a" "bc" = (.ok "/tmp/newtrepo1", st', 0) :=
  getRepo_cache_key_aliasing okCloneEnv downEnv ⟨[]⟩ "ab" "c" "a" "bc"
    "/tmp/newtrepo1" rfl rfl rfl rfl

/-- Wraparound is the identity on values already in the `int64` range. -/
theorem wrap64_eq_self (x : Int) (h1 : -(2 ^ 63) ≤ x) (h2 : x < 2 ^ 63) :
    wrap64 x = x := by
  unfold wrap64
  omega

/-- C5 fails as stated: at `a = (2^63 - 1, 0, 0)` and `b = (-1, 0, 0)` —
both representable `int64` versions — the major-component subtraction
overflows and wraps, so `VerCmp a b` and `VerCmp b a` are both negative
instead of having opposite signs. -/
theorem verCmp_antisymmetry_counterexample :
    VerCmp ⟨2 ^ 63 - 1, 0, 0⟩ ⟨-1, 0, 0⟩ < 0 ∧
      VerCmp ⟨-1, 0, 0⟩ ⟨2 ^ 63 - 1, 0, 0⟩ < 0 := by
  decide

/-- C5, amended: `VerCmp v v = 0` for every version `v`, unconditionally;
and for every pair of versions whose componentwise differences lie
strictly inside the `int64` range — that is, whenever no component
subtraction overflows in either direction — the sign of `VerCmp a b` is
the opposite of the sign of `VerCmp b a`: zero iff the other is zero,
negative iff the other is positive. -/
theorem verCmp_refl_antisymm (a b : Version)
    (hmaj1 : -(2 ^ 63) < a.major - b.major) (hmaj2 : a.major - b.major < 2 ^ 63)
    (hmin1 : -(2 ^ 63) < a.minor - b.minor) (hmin2 : a.minor - b.minor < 2 ^ 63)
    (hrev1 : -(2 ^ 63) < a.revision - b.revision)
    (hrev2 : a.revision - b.revision < 2 ^ 63) :
    (∀ v : Version, VerCmp v v = 0) ∧
      (VerCmp a b = 0 ↔ VerCmp b a = 0) ∧
      (VerCmp a b < 0 ↔ 0 < VerCmp b a) ∧
      (0 < VerCmp a b ↔ VerCmp b a < 0) := by
  have h0 : wrap64 0 = 0 := by decide
  have e1 : int64Sub a.major b.major = a.major - b.major := by
    unfold int64Sub; exact wrap64_eq_self _ (by omega) (by omega)
  have e2 : int64Sub b.major a.major = b.major - a.major := by
    unfold int64Sub; exact wrap64_eq_self _ (by omega) (by omega)
  have e3 : int64Sub a.minor b.minor = a.minor - b.minor := by
    unfold int64Sub; exact wrap64_eq_self _ (by omega) (by omega)
  have e4 : int64Sub b.minor a.minor = b.minor - a.minor := by
    unfold int64Sub; exact wrap64_eq_self _ (by omega) (by omega)
  have e5 : int64Sub a.revision b.revision = a.revision - b.revision := by
    unfold int64Sub; exact wrap64_eq_self _ (by omega) (by omega)
  have e6 : int64Sub b.revision a.revision = b.revision - a.revision := by
    unfold int64Sub; exact wrap64_eq_self _ (by omega) (by omega)
  refine ⟨fun v => by simp [VerCmp, int64Sub, h0], ?_, ?_, ?_⟩ <;>
    simp only [VerCmp, e1, e2, e3, e4, e5, e6] <;> split_ifs <;> omega

/-- Trimming the trailing slash is the identity when the string does not
end in a slash. -/
theorem trimSuffixSlash_of_ne (s : GoStr) (h : s.getLast? ≠ some '/') :
    trimSuffixSlash s = s := by
  unfold trimSuffixSlash
  exact if_neg h

/-- Splitting at the first occurrence of `c` recovers the two halves of a
concatenation around `c` when the left half does not contain `c`. -/
theorem splitFirst_append (c : Char) (r p : GoStr) (h : c ∉ r) :
    splitFirst c (r ++ c :: p) = some (r, p) := by
  induction r with
  | nil => simp [splitFirst]
  | cons x xs ih =>
    have hx : ¬(x = c) := fun hxc => h (hxc ▸ List.mem_cons_self x xs)
    have hm : c ∉ xs := fun hc => h (List.mem_cons_of_mem _ hc)
    simp [splitFirst, hx, ih hm]

/-- C2 fails as stated: with `repoName = ""` and the non-empty
`packagePath = "@x/y"`, `BuildPackageString` returns the path unchanged,
but `ParsePackageString` then reads its leading `@` as a repo designator
and returns `("x", "y")`, not `("", "@x/y")`. -/
theorem build_parse_roundtrip_counterexample :
    ParsePackageString (BuildPackageString [] ['@', 'x', '/', 'y']) ≠
      Except.ok (([] : GoStr), ['@', 'x', '/', 'y']) := by
  decide

/-- C2, amended: the round trip
`ParsePackageString (BuildPackageString r p) = .ok (r, p)` holds for every
non-empty `p` and every `r`, provided `r` contains no `/`, `p` does not end
in `/`, and, when `r` is empty, `p` does not start with `@`. -/
theorem build_parse_roundtrip (r p : GoStr) (hp : p ≠ [])
    (hlast : p.getLast? ≠ some '/') (hr : '/' ∉ r)
    (hhead : r = [] → p.head? ≠ some '@') :
    ParsePackageString (BuildPackageString r p) = .ok (r, p) := by
  by_cases hrnil : r = []
  · subst hrnil
    have hb : BuildPackageString [] p = p := by simp [BuildPackageString]
    rw [hb]
    simp [ParsePackageString, trimSuffixSlash_of_ne p hlast, hhead rfl]
  · have hb : BuildPackageString r p = '@' :: (r ++ '/' :: p) := by
      simp [BuildPackageString, hrnil]
    rw [hb]
    obtain ⟨c, hc⟩ := Option.isSome_iff_exists.mp (List.getLast?_isSome.mpr hp)
    have hcs : ¬(c = '/') := fun hceq => hlast (hceq ▸ hc)
    have hgl : ('@' :: (r ++ '/' :: p)).getLast? = some c := by
      rw [show ('@' :: (r ++ '/' :: p)) = ('@' :: r ++ ['/']) ++ p by simp]
      rw [List.getLast?_append, hc]
      rfl
    have htr : trimSuffixSlash ('@' :: (r ++ '/' :: p)) =
        '@' :: (r ++ '/' :: p) :=
      trimSuffixSlash_of_ne _ (by simp [hgl, hcs])
    simp [ParsePackageString, htr, splitFirst_append '/' r p hr]

/-- Witness for the amended C2 at `repoName = "repo"`,
`packagePath = "pkg"`. -/
theorem build_parse_roundtrip_witness :
    ParsePackageString
        (BuildPackageString ['r', 'e', 'p', 'o'] ['p', 'k', 'g']) =
      .ok (['r', 'e', 'p', 'o'], ['p', 'k', 'g']) :=
  build_parse_roundtrip ['r', 'e', 'p', 'o'] ['p', 'k', 'g'] (by decide)
    (by decide) (by decide) (by decide)

/-- Characterisation of `splitFirst`: it answers `some` exactly when the
separator occurs, splitting at the first occurrence — before it, everything
satisfies the take-while of the negated separator test. -/
theorem splitFirst_eq (c : Char) (l : GoStr) :
    splitFirst c l =
      if c ∈ l then
        some (l.takeWhile (fun x => x ≠ c),
          (l.dropWhile (fun x => x ≠ c)).drop 1)
      else none := by
  induction l with
  | nil => simp [splitFirst]
  | cons x xs ih =>
    by_cases hx : x = c
    · subst hx
      simp [splitFirst]
    · have hxc : ¬(c = x) := fun hcx => hx hcx.symm
      by_cases hm : c ∈ xs <;>
        simp [splitFirst, hx, hxc, hm, ih, List.takeWhile_cons,
          List.dropWhile_cons]

/-- C6: `ParsePackageString` behaves as the reference algorithm of the
specification on every input string, and in particular `"@foo"` and
`"@foo/"` fail with the invalid-package-string error while
`"@foo/bar/baz"` yields `("foo", "bar/baz")`. -/
theorem parsePackageString_matches_reference :
    (∀ s : GoStr, ParsePackageString s = parsePackageStringRef s) ∧
    ParsePackageString ['@', 'f', 'o', 'o'] =
      .error (.invalidPackageString ['@', 'f', 'o', 'o']) ∧
    ParsePackageString ['@', 'f', 'o', 'o', '/'] =
      .error (.invalidPackageString ['@', 'f', 'o', 'o']) ∧
    ParsePackageString
        ['@', 'f', 'o', 'o', '/', 'b', 'a', 'r', '/', 'b', 'a', 'z'] =
      .ok (['f', 'o', 'o'], ['b', 'a', 'r', '/', 'b', 'a', 'z']) := by
  refine ⟨?_, by decide, by decide, by decide⟩
  intro s
  unfold ParsePackageString parsePackageStringRef
  simp only [splitFirst_eq]
  by_cases h1 : (trimSuffixSlash s).head? = some '@' <;>
    by_cases h2 : '/' ∈ (trimSuffixSlash s).tail <;>
      simp [h1, h2, List.drop_one]

/-- Witness for the amended C5 at the concrete versions `1.4.9999` and
`1.5.0`, whose componentwise differences are far from overflow. -/
theorem verCmp_refl_antisymm_witness :
    (∀ v : Version, VerCmp v v = 0) ∧
      (VerCmp ⟨1, 4, 9999⟩ ⟨1, 5, 0⟩ = 0 ↔ VerCmp ⟨1, 5, 0⟩ ⟨1, 4, 9999⟩ = 0) ∧
      (VerCmp ⟨1, 4, 9999⟩ ⟨1, 5, 0⟩ < 0 ↔ 0 < VerCmp ⟨1, 5, 0⟩ ⟨1, 4, 9999⟩) ∧
      (0 < VerCmp ⟨1, 4, 9999⟩ ⟨1, 5, 0⟩ ↔ VerCmp ⟨1, 5, 0⟩ ⟨1, 4, 9999⟩ < 0) :=
  verCmp_refl_antisymm ⟨1, 4, 9999⟩ ⟨1, 5, 0⟩ (by decide) (by decide)
    (by decide) (by decide) (by decide) (by decide)

/-- There is no position holding `c` exactly when `c` is not a member. -/
theorem forall_getElem_ne_iff_not_mem (c : Char) (s : GoStr) :
    (∀ i : Nat, s[i]? ≠ some c) ↔ c ∉ s := by
  constructor
  · intro h hc
    obtain ⟨n, hn⟩ := List.mem_iff_getElem?.mp hc
    exact h n hn
  · intro h i hi
    exact h (List.mem_iff_getElem?.mpr ⟨i, hi⟩)

/-- The index search `findIdx? (· == c)` answers `some i` exactly when `i`
is the position of the first occurrence of `c`. -/
theorem findIdx?_beq_eq_some_iff (c : Char) (s : GoStr) (i : Nat) :
    s.findIdx? (· == c) = some i ↔ firstOccurAt c s i := by
  rw [List.findIdx?_eq_some_iff_getElem]
  unfold firstOccurAt
  constructor
  · rintro ⟨h, hp, hall⟩
    have hieq : s[i] = c := by simpa using hp
    refine ⟨by rw [List.getElem?_eq_getElem h, hieq], ?_⟩
    intro j hj hjc
    have hjl : j < s.length := Nat.lt_trans hj h
    rw [List.getElem?_eq_getElem hjl] at hjc
    have hjeq : s[j] = c := by simpa using hjc
    have hb := hall j hj
    simp [hjeq] at hb
  · rintro ⟨hi, hall⟩
    have hl : i < s.length := by
      by_contra hge
      rw [List.getElem?_eq_none (Nat.le_of_not_lt hge)] at hi
      exact Option.noConfusion hi
    have hieq : s[i] = c := by
      rw [List.getElem?_eq_getElem hl] at hi
      simpa using hi
    refine ⟨hl, by simp [hieq], ?_⟩
    intro j hj
    have hjl : j < s.length := Nat.lt_trans hj hl
    have hne := hall j hj
    rw [List.getElem?_eq_getElem hjl] at hne
    simp only [beq_eq_false_iff_ne, ne_eq, Bool.not_eq_true, beq_iff_eq]
    intro heq
    exact hne (by simp [heq])

/-- C9: `FindRepoDesignator` answers `(-1, -1)` exactly when the string
has no `@`, or has no `/` at or after its first `@`; and whenever `a` is
the position of the first `@` and `a + l` is the position of the first `/`
at or after that `@`, it answers `(a, l)` — the second component being the
offset of the `/` relative to the `@`, not its absolute position. -/
theorem findRepoDesignator_spec (s : GoStr) :
    (FindRepoDesignator s = (-1, -1) ↔
      (∀ i : Nat, s[i]? ≠ some '@') ∨
        ∃ a, firstOccurAt '@' s a ∧ ∀ j, a ≤ j → s[j]? ≠ some '/') ∧
    ∀ a l : Nat, firstOccurAt '@' s a → s[a + l]? = some '/' →
      (∀ j, a ≤ j → j < a + l → s[j]? ≠ some '/') →
      FindRepoDesignator s = ((a : Int), (l : Int)) := by
  constructor
  · constructor
    · intro hres
      cases hat : s.findIdx? (· == '@') with
      | none =>
        left
        rw [forall_getElem_ne_iff_not_mem]
        intro hmem
        have := List.findIdx?_eq_none_iff.mp hat '@' hmem
        simp at this
      | some a =>
        right
        refine ⟨a, (findIdx?_beq_eq_some_iff '@' s a).mp hat, ?_⟩
        cases hsl : (s.drop a).findIdx? (· == '/') with
        | none =>
          intro j haj hj
          have hmem : '/' ∈ s.drop a := by
            refine List.mem_iff_getElem?.mpr ⟨j - a, ?_⟩
            rw [List.getElem?_drop, Nat.add_sub_cancel' haj]
            exact hj
          have := List.findIdx?_eq_none_iff.mp hsl '/' hmem
          simp at this
        | some l =>
          exfalso
          have hval : FindRepoDesignator s = ((a : Int), (l : Int)) := by
            simp [FindRepoDesignator, hat, hsl]
          rw [hval] at hres
          simp [Prod.ext_iff] at hres
    · intro h
      rcases h with h | ⟨a, hfirst, hnoslash⟩
      · have hat : s.findIdx? (· == '@') = none := by
          rw [List.findIdx?_eq_none_iff]
          intro x hx
          rw [beq_eq_false_iff_ne]
          obtain ⟨n, hn⟩ := List.mem_iff_getElem?.mp hx
          rintro rfl
          exact h n hn
        simp [FindRepoDesignator, hat]
      · have hat : s.findIdx? (· == '@') = some a :=
          (findIdx?_beq_eq_some_iff '@' s a).mpr hfirst
        have hsl : (s.drop a).findIdx? (· == '/') = none := by
          rw [List.findIdx?_eq_none_iff]
          intro x hx
          rw [beq_eq_false_iff_ne]
          obtain ⟨n, hn⟩ := List.mem_iff_getElem?.mp hx
          rw [List.getElem?_drop] at hn
          rintro rfl
          exact hnoslash (a + n) (Nat.le_add_right a n) hn
        simp [FindRepoDesignator, hat, hsl]
  · intro a l hfirst hsl hbefore
    have hat : s.findIdx? (· == '@') = some a :=
      (findIdx?_beq_eq_some_iff '@' s a).mpr hfirst
    have hdrop : (s.drop a).findIdx? (· == '/') = some l := by
      rw [findIdx?_beq_eq_some_iff]
      refine ⟨by rw [List.getElem?_drop]; exact hsl, ?_⟩
      intro j hj
      rw [List.getElem?_drop]
      exact hbefore (a + j) (Nat.le_add_right a j) (by omega)
    simp [FindRepoDesignator, hat, hdrop]

/-- Witness for C9 at `"@x/y"`: the first `@` is at index 0 and the first
`/` at or after it is at index 2, so the result is `(0, 2)`. -/
theorem findRepoDesignator_spec_witness :
    FindRepoDesignator ['@', 'x', '/', 'y'] = (0, 2) := by
  have h := (findRepoDesignator_spec ['@', 'x', '/', 'y']).2 0 2
    ⟨rfl, fun j hj => absurd hj (Nat.not_lt_zero j)⟩ rfl
    (fun j _ hj => by interval_cases j <;> decide)
  simpa using h

/-- C7: when `FindRepoDesignator` finds a designator `(start, len)` and the
project maps the extracted repo name `s[start+1 : start+len]` to a
non-empty path, `ReplaceRepoDesignators` splices the repository path —
with the project root prefix and its trailing separator stripped when
present — in place of the designator:
`s[0:start] ++ relRepoPath ++ s[start+len:]`, reporting `true`. -/
theorem replaceRepoDesignators_splices (proj : Project) (s : GoStr)
    (start len : Nat)
    (hfind : FindRepoDesignator s = ((start : Int), (len : Int)))
    (hrepo : proj.findRepoPath (repoNameAt s start len) ≠ []) :
    ReplaceRepoDesignators proj s =
      (s.take start ++
        goTrimPrefix (proj.findRepoPath (repoNameAt s start len))
          (proj.path ++ ['/']) ++
        s.drop (start + len), true) := by
  unfold ReplaceRepoDesignators
  rw [hfind]
  have h1 : ¬((start : Int) = -1) := by omega
  simp [h1, hrepo]

/-- Witness for C7 at the specification's own example: with `repoX` mapped
to the absolute path `/proj/repoX` and project root `/proj`,
`ReplaceRepoDesignators "@repoX/sub/path"` yields
`("repoX/sub/path", true)` — the path relative to the project root. -/
theorem replaceRepoDesignators_splices_witness :
    ReplaceRepoDesignators projX "@repoX/sub/path".toList =
      ("repoX/sub/path".toList, true) := by
  rw [replaceRepoDesignators_splices projX "@repoX/sub/path".toList 0 6
    (by decide) (by decide)]
  decide

/-- C8: `ReplaceRepoDesignators` reports no error on any input — when no
designator is found, or when the project maps the extracted repo name to
the empty path (unknown repository), it returns the input unchanged
together with `false`. -/
theorem replaceRepoDesignators_graceful (proj : Project) (s : GoStr)
    (h : FindRepoDesignator s = (-1, -1) ∨
      proj.findRepoPath
        (repoNameAt s (FindRepoDesignator s).1.toNat
          (FindRepoDesignator s).2.toNat) = []) :
    ReplaceRepoDesignators proj s = (s, false) := by
  unfold ReplaceRepoDesignators
  rcases h with h | h
  · simp [h]
  · by_cases h1 : (FindRepoDesignator s).1 = -1
    · simp [h1]
    · simp [h1, h]

/-- Witness for C8 on a string whose named repository is unknown to the
project: the original string comes back unchanged with `false`. -/
theorem replaceRepoDesignators_graceful_witness :
    ReplaceRepoDesignators noRepoProj ['@', 'x', '/', 'y'] =
      (['@', 'x', '/', 'y'], false) :=
  replaceRepoDesignators_graceful noRepoProj ['@', 'x', '/', 'y']
    (Or.inr rfl)

end Newt
